import Mathlib

/-!
Verification development for react-base16-styling (src/index.js).

The JavaScript source is embedded shallowly:
* JS objects are association lists in insertion order (`JSObj`), with
  property write `jsSet` (update-in-place or append, as JS assignment does),
  property read `jsGet` and object-spread `jsSpread`.
* A styling value (class-name string / style object / styling function /
  other JS value) is the inductive `SVal`.  The styling functions that the
  library itself constructs (the closures returned by `merger` and by
  `mergeStyling`) are deep-embedded as the `fn*` constructors of `SVal`,
  together with `fnBaseConst` for a caller-supplied function that returns a
  constant partial props object; `evalFn` is their evaluator.
* `undefined` is `Option.none`; a map whose stored values may be the JS
  value `undefined` uses `Option SVal` entries.
-/

namespace ReactBase16Styling

/-- JS object: association list of properties in insertion order. -/
abbrev JSObj (α : Type) := List (String × α)

/-- `Object.keys`. -/
def objKeys {α : Type} (m : JSObj α) : List String := m.map Prod.fst

/-- JS property read `m[k]`: first entry with the key (JS objects have
unique keys, which all constructions below preserve). -/
def jsGet {α : Type} : JSObj α → String → Option α
  | [], _ => none
  | e :: rest, k => if e.1 = k then some e.2 else jsGet rest k

/-- JS property write `m[k] = v`: update in place if the key exists,
otherwise append. -/
def jsSet {α : Type} : JSObj α → String → α → JSObj α
  | [], k, v => [(k, v)]
  | e :: rest, k, v => if e.1 = k then (k, v) :: rest else e :: jsSet rest k v

/-- JS object spread: the entries of `b` assigned one by one on top of `a`. -/
def jsSpread {α : Type} (a b : JSObj α) : JSObj α :=
  b.foldl (fun m e => jsSet m e.1 e.2) a

/-- JS `x || y` at the level of option values (first one if present). -/
def jsAlt {α : Type} : Option α → Option α → Option α
  | some v, _ => some v
  | none, b => b

/-- A JS styling value: class-name string, style object, styling function,
or another (number / boolean) JS value.  The `fn*` constructors are the
closures built by `merger` / `mergeStyling` in src/index.js plus a
constant-result caller function. -/
inductive SVal where
  /-- a class-name string -/
  | str (s : String)
  /-- a style-attribute object (also used for any JS object value) -/
  | obj (fields : List (String × SVal))
  /-- a JS number -/
  | num (n : Int)
  /-- a JS boolean -/
  | boolV (b : Bool)
  /-- caller-supplied styling function returning a constant partial
  props object (className / style fields, absent = not returned) -/
  | fnBaseConst (cn : Option String) (st : Option (List (String × SVal)))
  /-- `merger(styling)` from src/index.js lines 29-34: the closure holding
  `styling.className` and `styling.style` -/
  | fnMerger (cn : Option String) (st : Option (List (String × SVal)))
  /-- mergeStyling (string, function) case, lines 54-57 -/
  | fnStrThen (c : String) (d : SVal)
  /-- mergeStyling (object, function) case, lines 65-68 -/
  | fnObjThen (c : List (String × SVal)) (d : SVal)
  /-- mergeStyling (function, string) case, lines 72-75 -/
  | fnAfterStr (c : SVal) (d : String)
  /-- mergeStyling (function, object) case, lines 76-79 -/
  | fnAfterObj (c : SVal) (d : List (String × SVal))
  /-- mergeStyling (function, function) case, lines 80-84 -/
  | fnComp (c d : SVal)

/-- The JS `typeof` dispatch used by src/index.js, as a view: string,
object, function, or any other runtime type. -/
inductive SView where
  | vstr (s : String)
  | vobj (o : List (String × SVal))
  | vfn (f : SVal)
  | vother

/-- `typeof`-style view of a styling value. -/
def svalView : SVal → SView
  | .str s => .vstr s
  | .obj o => .vobj o
  | .num _ => .vother
  | .boolV _ => .vother
  | f => .vfn f

/-- JS truthiness of a styling value. -/
def svalTruthy : SVal → Bool
  | .str s => s != ""
  | .num n => n != 0
  | .boolV b => b
  | _ => true

/-- `[ ... ].join(' ')` on the already-filtered pieces. -/
def joinSp : List String → String
  | [] => ""
  | [s] => s
  | s :: rest => s ++ " " ++ joinSp rest

/-- `[a, b].filter(Boolean).join(' ')` over possibly-absent strings:
drop `undefined` and empty strings, then join with single spaces. -/
def joinCls (l : List (Option String)) : String :=
  joinSp ((l.filterMap id).filter (fun s => s != ""))

/-- The accumulated `className`/`style` props object; an absent field is
`none`. -/
structure Props where
  className : Option String
  style : Option (List (String × SVal))

/-- `merger(styling)(prevStyling)` from src/index.js lines 29-34, with
`styling = (mcn, mst)` and `prevStyling = (pcn, pst)`:
`className` is the filtered space-join of the two class names,
`style` the spread of `styling.style` over `prevStyling.style`. -/
def mergerApply (mcn : Option String) (mst : Option (List (String × SVal)))
    (pcn : Option String) (pst : Option (List (String × SVal))) : Props :=
  Props.mk (some (joinCls [pcn, mcn])) (some (jsSpread (pst.getD []) (mst.getD [])))

/-- Evaluate a deep-embedded styling function on incoming props and extra
arguments, following the closures built in src/index.js.  On a
non-function value it returns the props unchanged (never invoked). -/
def evalFn : SVal → Props → List SVal → Props
  | .fnBaseConst cn st, _, _ => Props.mk cn st
  | .fnMerger cn st, p, _ => mergerApply cn st p.className p.style
  | .fnStrThen c d, p, args =>
      let q := evalFn d p args
      mergerApply (some c) none q.className q.style
  | .fnObjThen c d, p, args =>
      let q := evalFn d p args
      mergerApply none (some c) q.className q.style
  | .fnAfterStr c d, p, args => evalFn c (mergerApply p.className p.style (some d) none) args
  | .fnAfterObj c d, p, args => evalFn c (mergerApply p.className p.style none (some d)) args
  | .fnComp c d, p, args => evalFn c (evalFn d p args) args
  | _, p, _ => p

/-- The 3x3 `typeof`-dispatch of `mergeStyling` (src/index.js lines 44-86)
on two defined styling values.  The JS `switch` has no `break`s, but every
inner `case` that matches returns, and when the default value's type is
not string/object/function no inner case matches anywhere along the
fall-through, so the function ends without a `return` - i.e. `undefined`
(`none`); likewise when the custom value's type matches no outer case. -/
def mergeStylingCase (c d : SVal) : Option SVal :=
  match svalView c, svalView d with
  | .vstr cs, .vstr ds => some (.str (joinCls [some ds, some cs]))
  | .vstr cs, .vobj dobj => some (.fnMerger (some cs) (some dobj))
  | .vstr cs, .vfn df => some (.fnStrThen cs df)
  | .vobj cobj, .vstr ds => some (.fnMerger (some ds) (some cobj))
  | .vobj cobj, .vobj dobj => some (.obj (jsSpread dobj cobj))
  | .vobj cobj, .vfn df => some (.fnObjThen cobj df)
  | .vfn cf, .vstr ds => some (.fnAfterStr cf ds)
  | .vfn cf, .vobj dobj => some (.fnAfterObj cf dobj)
  | .vfn cf, .vfn df => some (.fnComp cf df)
  | _, _ => none

/-- `mergeStyling(customStyling, defaultStyling)` from src/index.js lines
36-87: `undefined` on either side returns the other side unchanged,
otherwise the 3x3 dispatch. -/
def mergeStyling : Option SVal → Option SVal → Option SVal
  | none, d => d
  | some c, none => some c
  | some c, some d => mergeStylingCase c d

/-- Whether a styling value's runtime type is string, object or function
(the types the `mergeStyling` dispatch recognises). -/
def isStrObjFn (v : SVal) : Bool :=
  match svalView v with
  | .vother => false
  | _ => true

/-! ## Color pipeline

`invertColor` (src/index.js lines 17-25) composes `parse`, `rgb2yuv`, a
luma flip, `yuv2rgb` and `rgb2hex`.  The converters live in the external
`pure-color` package and in `src/colorConverters.js`, which is not part of
the sources provided; they are modelled from the spec with exact fraction
arithmetic. -/

/-- An exact fraction with positive denominator (never normalised; all
construction sites below keep the denominator positive). -/
structure Frac where
  num : Int
  den : Int

/-- Fraction addition. -/
def Frac.add (a b : Frac) : Frac := ⟨a.num * b.den + b.num * a.den, a.den * b.den⟩

/-- Fraction subtraction. -/
def Frac.sub (a b : Frac) : Frac := ⟨a.num * b.den - b.num * a.den, a.den * b.den⟩

/-- Fraction multiplication. -/
def Frac.mul (a b : Frac) : Frac := ⟨a.num * b.num, a.den * b.den⟩

/-- Fraction comparison (valid for positive denominators). -/
def Frac.ltF (a b : Frac) : Bool := decide (a.num * b.den < b.num * a.den)

/-- JS `Math.round` on a fraction with positive denominator:
round half toward positive infinity, i.e. the floor of `a + 1/2`. -/
def jsRound (a : Frac) : Int := (2 * a.num + a.den).fdiv (2 * a.den)

/-- Value of one hex digit (decimal digits, letters in either case),
computed from the character code. -/
def hexDigitVal (ch : Char) : Option Nat :=
  let n := ch.toNat
  if 48 ≤ n ∧ n ≤ 57 then some (n - 48)
  else if 97 ≤ n ∧ n ≤ 102 then some (n - 87)
  else if 65 ≤ n ∧ n ≤ 70 then some (n - 55)
  else none

/-- Value of a two-hex-digit byte. -/
def hexByteVal (c1 c2 : Char) : Option Nat := do
  let h ← hexDigitVal c1
  let l ← hexDigitVal c2
  pure (16 * h + l)

/-- Modelled from the spec: the external `pure-color` `parse`, restricted
to `#rrggbb` hex strings (the form the spec's color values use), giving
the RGB triple on the 0..255 scale; `none` on any other input. -/
def parseHexColor (s : String) : Option (Int × Int × Int) :=
  match s.toList with
  | ['#', r1, r2, g1, g2, b1, b2] => do
      let r ← hexByteVal r1 r2
      let g ← hexByteVal g1 g2
      let b ← hexByteVal b1 b2
      pure ((r : Int), (g : Int), (b : Int))
  | _ => none

/-- Modelled from the spec: `rgb2yuv` of the missing
`src/colorConverters.js` - RGB (0..255) to a YUV triple with luma first
(`y = 0.299 r + 0.587 g + 0.114 b` on the 0..1 scale,
`u = 0.492 (b - y)`, `v = 0.877 (r - y)`), exact. -/
def rgb2yuv (r g b : Int) : Frac × Frac × Frac :=
  let rr : Frac := ⟨r, 255⟩
  let gg : Frac := ⟨g, 255⟩
  let bb : Frac := ⟨b, 255⟩
  let y := (rr.mul ⟨299, 1000⟩).add ((gg.mul ⟨587, 1000⟩).add (bb.mul ⟨114, 1000⟩))
  let u := (bb.sub y).mul ⟨492, 1000⟩
  let v := (rr.sub y).mul ⟨877, 1000⟩
  (y, u, v)

/-- Clamp a fraction into [0, 1]. -/
def clamp01 (a : Frac) : Frac :=
  if a.ltF ⟨0, 1⟩ then ⟨0, 1⟩ else if Frac.ltF ⟨1, 1⟩ a then ⟨1, 1⟩ else a

/-- Modelled from the spec: `yuv2rgb` of the missing
`src/colorConverters.js` - the exact inverse of `rgb2yuv` (the spec
contracts the two to be inverses up to rounding), with each channel
clamped into range and scaled back to 0..255. -/
def yuv2rgb (y u v : Frac) : Frac × Frac × Frac :=
  let b := (u.mul ⟨1000, 492⟩).add y
  let r := (v.mul ⟨1000, 877⟩).add y
  let g := (y.sub ((r.mul ⟨299, 1000⟩).add (b.mul ⟨114, 1000⟩))).mul ⟨1000, 587⟩
  ((clamp01 r).mul ⟨255, 1⟩, (clamp01 g).mul ⟨255, 1⟩, (clamp01 b).mul ⟨255, 1⟩)

/-- The luma correcting factor `flip` from src/index.js line 17:
`x < 0.25 ? 1 : (x < 0.5 ? 0.9 - x : 1.1 - x)`. -/
def flip (x : Frac) : Frac :=
  if x.ltF ⟨1, 4⟩ then ⟨1, 1⟩
  else if x.ltF ⟨1, 2⟩ then Frac.sub ⟨9, 10⟩ x
  else Frac.sub ⟨11, 10⟩ x

/-- Lower-case hex digit of a value below 16, from the character code. -/
def hexChar (n : Nat) : Char :=
  if n < 10 then Char.ofNat (48 + n) else Char.ofNat (87 + n % 16)

/-- One channel (0..255 scale) clamped, rounded and rendered as two hex
digits. -/
def hexByteOf (c : Frac) : String :=
  let cl := if c.ltF ⟨0, 1⟩ then (⟨0, 1⟩ : Frac)
            else if Frac.ltF ⟨255, 1⟩ c then ⟨255, 1⟩ else c
  let n := (jsRound cl).toNat
  String.mk [hexChar (n / 16 % 16), hexChar (n % 16)]

/-- Modelled from the spec: the external `pure-color` `rgb2hex` -
re-encode an RGB triple as a `#rrggbb` string (clamp and round each
channel). -/
def rgb2hex (r g b : Frac) : String :=
  "#" ++ hexByteOf r ++ hexByteOf g ++ hexByteOf b

/-- `invertColor` from src/index.js lines 19-25: parse, to YUV, flip the
luma, back to RGB, re-encode as hex.  On a string `parse` does not accept
the input is returned unchanged (the JS pipeline would propagate an
error there; no claim exercises that path). -/
def invertColor (s : String) : String :=
  match parseHexColor s with
  | none => s
  | some (r, g, b) =>
      let yuv := rgb2yuv r g b
      let rgb := yuv2rgb (flip yuv.1) yuv.2.1 yuv.2.2
      rgb2hex rgb.1 rgb.2.1 rgb.2.2

/-- `invertColor` lifted to a JS value: applied to the string it holds.
(The JS code would throw on a non-string theme value; the theorems below
quantify only over string-valued themes, matching the spec's data model.) -/
def invertColorSV : SVal → SVal
  | .str s => .str (invertColor s)
  | v => v

/-- `theme[key] + ':inverted'` for the `scheme` key (string values). -/
def schemeAppend : SVal → SVal
  | .str s => .str (s ++ ":inverted")
  | v => v

/-- The `/^base/` test of src/index.js line 139. -/
def startsWithBase (k : String) : Bool := "base".toList.isPrefixOf k.toList

/-- The body of the `invertTheme` reduce callback (src/index.js lines
139-140) on one key's value: color-invert a `base*` value, append
`:inverted` to the `scheme` value, pass anything else through. -/
def invertEntry (key : String) (v : SVal) : SVal :=
  if startsWithBase key then invertColorSV v
  else if key = "scheme" then schemeAppend v
  else v

/-- `invertTheme` from src/index.js lines 137-140: rebuild the theme key
by key over `Object.keys`, transforming each value with `invertEntry`. -/
def invertTheme (theme : JSObj SVal) : JSObj SVal :=
  (objKeys theme).foldl
    (fun t key => jsSet t key (invertEntry key ((jsGet theme key).getD (.str "")))) []

/-- Whether a JS value is a string. -/
def isStrV : SVal → Bool
  | .str _ => true
  | _ => false

/-- All stored values of a styling/theme object are strings (the shape
the spec's data model gives a theme: color strings plus string metadata). -/
def allStrVals (m : JSObj SVal) : Bool :=
  m.all (fun e => isStrV e.2)

/-- `mergeStylings` from src/index.js lines 89-101: the key list is
`Object.keys(defaultStylings)` with each custom key pushed if not already
present; each key is then assigned the `mergeStyling` of the two sides'
values.  A JS assignment of `undefined` still creates the key, hence the
`Option SVal` entries of the merged map. -/
def mergeStylings (customStylings defaultStylings : JSObj SVal) : JSObj (Option SVal) :=
  ((objKeys customStylings).foldl
      (fun ks key => if key ∈ ks then ks else ks ++ [key]) (objKeys defaultStylings)).foldl
    (fun m key =>
      jsSet m key (mergeStyling (jsGet customStylings key) (jsGet defaultStylings key))) []

/-- The `keys` argument of `getStylingByKeys`: the `null` sentinel, a
single (string) key, or an array of keys. -/
inductive KeysArg where
  | jsNull
  | single (k : String)
  | keyList (ks : List String)

/-- Result of `getStylingByKeys`: the raw merged map (for `keys === null`)
or a combined props object. -/
inductive GSBKResult where
  | rawMap (m : JSObj (Option SVal))
  | props (p : Props)

/-- Top-level field override as done by `{ ...obj, ...ret }`:
the second value when present, else the first. -/
def jsOverride {α : Type} (older newer : Option α) : Option α :=
  match newer with
  | some v => some v
  | none => older

/-- One step of the `getStylingByKeys` reduce (src/index.js lines
114-124): a string extends `className`, an object is spread into
`style`, a function is invoked on the accumulator and its result spread
over it at top level; any other value leaves the accumulator unchanged. -/
def foldStep (args : List SVal) (obj : Props) (s : SVal) : Props :=
  match svalView s with
  | .vstr cs => Props.mk (some (joinCls [obj.className, some cs])) obj.style
  | .vobj o => Props.mk obj.className (some (jsSpread (obj.style.getD []) o))
  | .vfn f =>
      let ret := evalFn f obj args
      Props.mk (jsOverride obj.className ret.className) (jsOverride obj.style ret.style)
  | .vother => obj

/-- `getStylingByKeys` (src/index.js lines 103-135) on an explicit key
list: look each key up, drop missing and falsy entries, fold into the
accumulator starting from empty `className`/`style`, then delete an
empty `className` and an empty `style`. -/
def getStylingByKeysList (m : JSObj (Option SVal)) (ks : List String)
    (args : List SVal) : Props :=
  let styles := (ks.filterMap (fun k => (jsGet m k).getD none)).filter svalTruthy
  let p := styles.foldl (foldStep args) (Props.mk (some "") (some []))
  let p1 := if p.className = some "" ∨ p.className = none then Props.mk none p.style else p
  match p1.style with
  | some [] => Props.mk p1.className none
  | _ => p1

/-- `getStylingByKeys`: `null` returns the merged map verbatim, a single
non-array key is wrapped into a one-element list. -/
def getStylingByKeys (m : JSObj (Option SVal)) (keys : KeysArg) (args : List SVal) :
    GSBKResult :=
  match keys with
  | .jsNull => .rawMap m
  | .single k => .props (getStylingByKeysList m [k] args)
  | .keyList ks => .props (getStylingByKeysList m ks args)

/-- Modelled from the spec: the built-in default base16 theme
(`base16.default` of the external `base16` package) - 16 color keys plus
`scheme`/`author` metadata, in the package's key order. -/
def DEFAULT_BASE16 : JSObj SVal :=
  [("scheme", .str "default"),
   ("author", .str "chris kempson"),
   ("base00", .str "#181818"), ("base01", .str "#282828"),
   ("base02", .str "#383838"), ("base03", .str "#585858"),
   ("base04", .str "#b8b8b8"), ("base05", .str "#d8d8d8"),
   ("base06", .str "#e8e8e8"), ("base07", .str "#f8f8f8"),
   ("base08", .str "#ab4642"), ("base09", .str "#dc9656"),
   ("base0A", .str "#f7ca88"), ("base0B", .str "#a1b56c"),
   ("base0C", .str "#86c1b9"), ("base0D", .str "#7cafc2"),
   ("base0E", .str "#ba8baf"), ("base0F", .str "#a16946")]

/-- `BASE16_KEYS = Object.keys(DEFAULT_BASE16)` (src/index.js line 13).
Note that it contains `scheme` and `author` besides the 16 color keys. -/
def BASE16_KEYS : List String := objKeys DEFAULT_BASE16

/-- The 16 reserved color keys of the spec's data model. -/
def COLOR_KEYS : List String :=
  ["base00", "base01", "base02", "base03", "base04", "base05", "base06",
   "base07", "base08", "base09", "base0A", "base0B", "base0C", "base0D",
   "base0E", "base0F"]

/-- Modelled from the spec: the built-in registry of named themes (the
`base16` module namespace).  Only its `default` entry matters to the
claims; the names they probe (`nonexistent`, `ab`) are absent from the
real registry as well. -/
def builtinBase16 : JSObj (JSObj SVal) := [("default", DEFAULT_BASE16)]

/-- The enumerable own properties of a JS string: one single-character
string per index, keyed by the decimal index (what `{ ...s }` and
`Object.keys(s)` produce). -/
def charPairsFrom (i : Nat) : List Char → List (String × SVal)
  | [] => []
  | c :: rest => (Nat.repr i, .str (String.mk [c])) :: charPairsFrom (i + 1) rest

/-- Index/character entries of a string. -/
def charPairs (s : String) : List (String × SVal) := charPairsFrom 0 s.toList

/-- JS property read `v[k]` on an arbitrary value: object property,
string character index, `undefined` otherwise. -/
def svalIndex (v : SVal) (k : String) : Option SVal :=
  match v with
  | .obj o => jsGet o k
  | .str s => jsGet (charPairs s) k
  | _ => none

/-- `Object.keys` on an arbitrary JS value. -/
def svalKeys : SVal → List String
  | .obj o => objKeys o
  | .str s => objKeys (charPairs s)
  | _ => []

/-- The own enumerable entries spread by `{ ...v }`. -/
def svalOwnPairs : SVal → List (String × SVal)
  | .obj o => o
  | .str s => charPairs s
  | _ => []

/-- JS `s.split(':')` on the character list. -/
def splitColonChars : List Char → List (List Char)
  | [] => [[]]
  | c :: rest =>
      match splitColonChars rest with
      | [] => [[]]
      | h :: t => if c = ':' then [] :: h :: t else (c :: h) :: t

/-- JS `s.split(':')`. -/
def splitOnColon (s : String) : List String :=
  (splitColonChars s.toList).map (fun l => String.mk l)

/-- The JS exception surfaced by the embedding. -/
inductive JsErr where
  /-- `Object.keys(undefined)` - a TypeError at runtime -/
  | typeError

/-- The final acceptance test of `getBase16Theme` (src/index.js line 188):
`theme && theme.hasOwnProperty('base00') ? theme : undefined`. -/
def acceptTheme : SVal → Option (JSObj SVal)
  | .obj o => if (jsGet o "base00").isSome then some o else none
  | _ => none

/-- The same acceptance test after a registry lookup that may have
yielded `undefined`. -/
def acceptThemeOpt : Option (JSObj SVal) → Option (JSObj SVal)
  | some o => if (jsGet o "base00").isSome then some o else none
  | none => none

/-- `getBase16Theme` from src/index.js lines 175-189.  A truthy `extend`
field is unwrapped first; a string reference is split on `:` and its name
looked up in the caller registry, then in the built-in one; the
`inverted` modifier applies `invertTheme` to the looked-up value - if the
lookup failed that is `invertTheme(undefined)`, whose
`Object.keys(undefined)` throws a TypeError; finally only an object
owning `base00` is returned. -/
def getBase16Theme (theme : SVal) (base16Themes : Option (JSObj (JSObj SVal))) :
    Except JsErr (Option (JSObj SVal)) :=
  let theme := match theme with
    | .obj o =>
        match jsGet o "extend" with
        | some e => if svalTruthy e then e else .obj o
        | none => .obj o
    | t => t
  match theme with
  | .str s =>
      let parts := splitOnColon s
      let themeName := parts.headD ""
      let modifier := parts[1]?
      let looked : Option (JSObj SVal) :=
        jsAlt (jsGet (base16Themes.getD []) themeName) (jsGet builtinBase16 themeName)
      if modifier = some "inverted" then
        match looked with
        | none => .error .typeError
        | some t => .ok (acceptThemeOpt (some (invertTheme t)))
      else
        .ok (acceptThemeOpt looked)
  | t => .ok (acceptTheme t)

/-- The options argument of `createStyling` (both fields optional). -/
structure StylingOptions where
  defaultBase16 : Option (JSObj SVal)
  base16Themes : Option (JSObj (JSObj SVal))

/-- An empty options object. -/
def noOptions : StylingOptions := ⟨none, none⟩

/-- JS `a || b` on a read property against a fallback: the property when
present and truthy, the fallback otherwise. -/
def jsOrVal (a b : Option SVal) : Option SVal :=
  match a with
  | some v => if svalTruthy v then some v else b
  | none => b

/-- The effective theme of `createStyling` (src/index.js lines 161-162):
`t[key] = themeOrStyling[key] || defaultBase16[key]` over `BASE16_KEYS`
(an entry is created even when both sides are undefined). -/
def effectiveTheme (defaultBase16 : JSObj SVal) (tos : SVal) : JSObj (Option SVal) :=
  BASE16_KEYS.foldl
    (fun t key => jsSet t key (jsOrVal (svalIndex tos key) (jsGet defaultBase16 key))) []

/-- The custom styling map of `createStyling` (src/index.js lines
164-166): every own key of the (overlaid) input that is not in
`BASE16_KEYS`, with its value. -/
def customStylingOf (tos : SVal) : JSObj SVal :=
  (svalKeys tos).foldl
    (fun s key =>
      if key ∈ BASE16_KEYS then s
      else jsSet s key ((svalIndex tos key).getD (.str ""))) []

/-- The overlay `{ ...base16Theme, ...themeOrStyling }` of src/index.js
lines 155-158 (spreading a string contributes its character entries). -/
def overlayOf (bt : JSObj SVal) (v : SVal) : SVal :=
  .obj (jsSpread (jsSpread [] bt) (svalOwnPairs v))

/-- `createStyling` from src/index.js lines 142-173, returning the merged
styling map captured by the curried `getStylingByKeys` closure it
returns (invoking that resolver on some keys is
`getStylingByKeys mergedStyling keys args`). -/
def createStyling (getStylingFromBase16 : JSObj (Option SVal) → JSObj SVal)
    (options : StylingOptions) (themeOrStyling : SVal) :
    Except JsErr (JSObj (Option SVal)) :=
  let defaultBase16 := options.defaultBase16.getD DEFAULT_BASE16
  match getBase16Theme themeOrStyling options.base16Themes with
  | .error e => .error e
  | .ok base16Theme =>
      let tos : SVal := match base16Theme with
        | some bt => overlayOf bt themeOrStyling
        | none => themeOrStyling
      let theme := effectiveTheme defaultBase16 tos
      let customStyling := customStylingOf tos
      let defaultStyling := getStylingFromBase16 theme
      .ok (mergeStylings customStyling defaultStyling)

/-! ## Concrete inputs used by witnesses and counterexamples -/

/-- Two-entry black-background theme for the C2 counterexample. -/
def blackTheme : JSObj SVal := [("scheme", .str "x"), ("base00", .str "#000000")]

/-- Small concrete theme for witnesses. -/
def smallTheme : JSObj SVal :=
  [("scheme", .str "tomorrow"), ("author", .str "someone"), ("base00", .str "#ffffff")]

/-- C4 scenario: the base theme whose `base0D` is red. -/
def c4Theme : JSObj SVal := [("base00", .str "#000000"), ("base0D", .str "#ff0000")]

/-- C4 scenario: the custom override for `base0D`. -/
def c4Override : SVal := .obj [("style", .obj [("fontWeight", .str "bold")])]

/-- C4 scenario: the themeOrStyling argument carrying theme and override. -/
def c4Input : SVal := .obj [("extend", .obj c4Theme), ("base0D", c4Override)]

/-- C4 scenario: `deriveDefaults` mapping every color key to
an object of shape style/color with the theme's value for that key. -/
def c4DeriveDefaults (theme : JSObj (Option SVal)) : JSObj SVal :=
  COLOR_KEYS.foldl
    (fun s key =>
      jsSet s key
        (.obj [("style", .obj [("color", ((jsGet theme key).getD none).getD (.str ""))])]))
    []

/-- C4 scenario: resolving the key `base0D` through the constructed
resolver. -/
def c4Resolve : Except JsErr GSBKResult :=
  match createStyling c4DeriveDefaults noOptions c4Input with
  | .error e => .error e
  | .ok m => .ok (getStylingByKeys m (.single "base0D") [])

/-- The style object of the C4 resolution result. -/
def c4ResultStyle : JSObj SVal :=
  match c4Resolve with
  | .ok (.props p) => p.style.getD []
  | _ => [("sentinel", .str "sentinel")]

/-- C9 scenario: a registered theme. -/
def c9Theme : JSObj SVal := [("base00", .str "#101010")]

/-- C9 scenario: options registering that theme under the name `ab`. -/
def c9Options : StylingOptions := ⟨none, some [("ab", c9Theme)]⟩

/-- C9 scenario: a deriveDefaults producing one semantic key. -/
def c9DeriveDefaults (_theme : JSObj (Option SVal)) : JSObj SVal :=
  [("tree", .str "tree-class")]

/-- A deriveDefaults returning the empty styling map. -/
def constDeriveDefaults (_theme : JSObj (Option SVal)) : JSObj SVal := []

/-- C3 counterexample: a caller-provided default table missing most keys. -/
def c3PartialDefault : JSObj SVal := [("base00", .str "#111111")]

/-- C3 counterexample: options providing that partial default table. -/
def c3Options : StylingOptions := ⟨some c3PartialDefault, none⟩

/-- C3 counterexample: an input whose `base02` is present but falsy. -/
def c3Input : SVal := .obj [("base02", .str "")]

/-- C5 witness: a custom styling map. -/
def c5Custom : JSObj SVal := [("tree", .str "custom-tree"), ("extra", .num 7)]

/-- C5 witness: a default styling map. -/
def c5Default : JSObj SVal :=
  [("tree", .str "default-tree"), ("label", .obj [("color", .str "#ff0000")])]

/-! ## Association-list lemmas for the JS object model -/

theorem jsGet_append {α : Type} (a b : JSObj α) (k : String) :
    jsGet (a ++ b) k = jsAlt (jsGet a k) (jsGet b k) := by
  induction a with
  | nil => simp [jsGet, jsAlt]
  | cons e rest ih =>
      by_cases h : e.1 = k <;> simp [jsGet, h, jsAlt, ih]

theorem mem_objKeys_of_jsGet {α : Type} {m : JSObj α} {k : String} {v : α}
    (h : jsGet m k = some v) : k ∈ objKeys m := by
  induction m with
  | nil => simp [jsGet] at h
  | cons e rest ih =>
      show k ∈ e.1 :: objKeys rest
      by_cases he : e.1 = k
      · exact he ▸ List.mem_cons_self _ _
      · simp only [jsGet, if_neg he] at h
        exact List.mem_cons_of_mem _ (ih h)

theorem jsGet_mem {α : Type} {m : JSObj α} {k : String} {v : α}
    (h : jsGet m k = some v) : (k, v) ∈ m := by
  induction m with
  | nil => simp [jsGet] at h
  | cons e rest ih =>
      obtain ⟨a, b⟩ := e
      by_cases he : a = k
      · subst he
        simp [jsGet] at h
        subst h
        exact List.mem_cons_self _ _
      · simp only [jsGet, if_neg he] at h
        exact List.mem_cons_of_mem _ (ih h)

theorem jsGet_isSome_of_mem_objKeys {α : Type} {m : JSObj α} {k : String}
    (h : k ∈ objKeys m) : ∃ v, jsGet m k = some v := by
  induction m with
  | nil => simp [objKeys] at h
  | cons e rest ih =>
      by_cases he : e.1 = k
      · exact ⟨e.2, by simp [jsGet, he]⟩
      · have h' : k ∈ objKeys rest := by
          rcases List.mem_cons.mp h with h1 | h1
          · exact absurd h1.symm he
          · exact h1
        obtain ⟨v, hv⟩ := ih h'
        exact ⟨v, by simp [jsGet, he, hv]⟩

theorem jsSet_append_of_not_mem {α : Type} {m : JSObj α} {k : String}
    (h : k ∉ objKeys m) (v : α) : jsSet m k v = m ++ [(k, v)] := by
  induction m with
  | nil => rfl
  | cons e rest ih =>
      have he : e.1 ≠ k := by
        intro hh
        exact h (by rw [← hh]; exact List.mem_cons_self _ _)
      have hr : k ∉ objKeys rest := fun hh => h (List.mem_cons_of_mem _ hh)
      simp only [jsSet, if_neg he]
      rw [ih hr]
      rfl

theorem jsGet_keyMap {α : Type} (f : String → α) (ks : List String) (k : String) :
    jsGet (ks.map (fun key => (key, f key))) k
      = if k ∈ ks then some (f k) else none := by
  induction ks with
  | nil => simp [jsGet]
  | cons k0 rest ih =>
      by_cases he : k0 = k
      · subst he
        simp [jsGet]
      · simp only [List.map_cons, jsGet, if_neg he, ih]
        simp [Ne.symm he]

/-- A `reduce` that writes a fresh value for every key of a duplicate-free
key list builds exactly the corresponding entry list. -/
theorem foldl_jsSet_entries {α : Type} (f : String → α) (ks : List String) :
    ∀ acc : JSObj α, ks.Nodup → (∀ k ∈ ks, k ∉ objKeys acc) →
      List.foldl (fun m key => jsSet m key (f key)) acc ks
        = acc ++ ks.map (fun key => (key, f key)) := by
  induction ks with
  | nil => intro acc _ _; simp
  | cons k0 rest ih =>
      intro acc hnd hfresh
      have h0 : k0 ∉ objKeys acc := hfresh k0 (List.mem_cons_self _ _)
      have hk0 : k0 ∉ rest := (List.nodup_cons.mp hnd).1
      have hnd' : rest.Nodup := (List.nodup_cons.mp hnd).2
      have hfresh' : ∀ k ∈ rest, k ∉ objKeys (acc ++ [(k0, f k0)]) := by
        intro k hk hmem
        have hkeys : objKeys (acc ++ [(k0, f k0)]) = objKeys acc ++ [k0] := by
          simp [objKeys]
        rw [hkeys] at hmem
        rcases List.mem_append.mp hmem with h | h
        · exact hfresh k (List.mem_cons_of_mem _ hk) h
        · simp at h
          exact hk0 (h ▸ hk)
      simp only [List.foldl_cons]
      rw [jsSet_append_of_not_mem h0, ih _ hnd' hfresh']
      simp

/-- The guarded variant: keys satisfying the guard are skipped. -/
theorem foldl_jsSet_guard_entries {α : Type} (P : String → Prop) [DecidablePred P]
    (f : String → α) (ks : List String) :
    ∀ acc : JSObj α, ks.Nodup → (∀ k ∈ ks, k ∉ objKeys acc) →
      List.foldl (fun m key => if P key then m else jsSet m key (f key)) acc ks
        = acc ++ (ks.filter (fun k => decide (¬ P k))).map (fun key => (key, f key)) := by
  induction ks with
  | nil => intro acc _ _; simp
  | cons k0 rest ih =>
      intro acc hnd hfresh
      have h0 : k0 ∉ objKeys acc := hfresh k0 (List.mem_cons_self _ _)
      have hk0 : k0 ∉ rest := (List.nodup_cons.mp hnd).1
      have hnd' : rest.Nodup := (List.nodup_cons.mp hnd).2
      by_cases hp : P k0
      · have hfresh' : ∀ k ∈ rest, k ∉ objKeys acc :=
          fun k hk => hfresh k (List.mem_cons_of_mem _ hk)
        simp only [List.foldl_cons, if_pos hp]
        rw [ih _ hnd' hfresh']
        simp [List.filter_cons, hp]
      · have hfresh' : ∀ k ∈ rest, k ∉ objKeys (acc ++ [(k0, f k0)]) := by
          intro k hk hmem
          have hkeys : objKeys (acc ++ [(k0, f k0)]) = objKeys acc ++ [k0] := by
            simp [objKeys]
          rw [hkeys] at hmem
          rcases List.mem_append.mp hmem with h | h
          · exact hfresh k (List.mem_cons_of_mem _ hk) h
          · simp at h
            exact hk0 (h ▸ hk)
        simp only [List.foldl_cons, if_neg hp]
        rw [jsSet_append_of_not_mem h0, ih _ hnd' hfresh']
        simp [List.filter_cons, hp]

theorem jsGet_jsSet {α : Type} (m : JSObj α) (k : String) (v : α) (q : String) :
    jsGet (jsSet m k v) q = if k = q then some v else jsGet m q := by
  induction m with
  | nil => simp [jsSet, jsGet]
  | cons e rest ih =>
      by_cases he : e.1 = k
      · simp only [jsSet, if_pos he, jsGet]
        by_cases hq : k = q
        · simp [hq]
        · rw [if_neg hq, if_neg hq, if_neg (fun hh => hq (he ▸ hh))]
      · simp only [jsSet, if_neg he]
        by_cases hq : e.1 = q
        · have hkq : k ≠ q := fun h => he (h ▸ hq)
          show jsGet ((e.1, e.2) :: jsSet rest k v) q = _
          rw [jsGet, if_pos hq, if_neg hkq, jsGet, if_pos hq]
        · show jsGet ((e.1, e.2) :: jsSet rest k v) q = _
          rw [jsGet, if_neg hq, ih, jsGet, if_neg hq]

theorem objKeys_jsSet {α : Type} (m : JSObj α) (k : String) (v : α) :
    objKeys (jsSet m k v) = if k ∈ objKeys m then objKeys m else objKeys m ++ [k] := by
  induction m with
  | nil => simp [jsSet, objKeys]
  | cons e rest ih =>
      by_cases he : e.1 = k
      · have hmem : k ∈ objKeys (e :: rest) := by
          rw [← he]
          exact List.mem_cons_self _ _
        simp only [jsSet, if_pos he, if_pos hmem]
        show k :: objKeys rest = e.1 :: objKeys rest
        rw [he]
      · simp only [jsSet, if_neg he]
        show e.1 :: objKeys (jsSet rest k v) = _
        rw [ih]
        by_cases hk : k ∈ objKeys rest
        · have hmem : k ∈ objKeys (e :: rest) := List.mem_cons_of_mem _ hk
          rw [if_pos hk, if_pos hmem]
          rfl
        · have hmem : k ∉ objKeys (e :: rest) := by
            intro hh
            rcases List.mem_cons.mp hh with h1 | h1
            · exact he h1.symm
            · exact hk h1
          rw [if_neg hk, if_neg hmem]
          rfl

theorem objKeys_jsSet_nodup {α : Type} {m : JSObj α} (h : (objKeys m).Nodup)
    (k : String) (v : α) : (objKeys (jsSet m k v)).Nodup := by
  rw [objKeys_jsSet]
  by_cases hk : k ∈ objKeys m
  · simpa [hk] using h
  · rw [if_neg hk]
    refine List.Nodup.append h (List.nodup_singleton _) ?_
    intro x hx hx1
    simp at hx1
    exact hk (hx1 ▸ hx)

theorem objKeys_jsSpread_nodup {α : Type} (b : List (String × α)) :
    ∀ a : JSObj α, (objKeys a).Nodup → (objKeys (jsSpread a b)).Nodup := by
  induction b with
  | nil => intro a h; exact h
  | cons e rest ih =>
      intro a h
      exact ih (jsSet a e.1 e.2) (objKeys_jsSet_nodup h e.1 e.2)

theorem jsGet_jsSpread {α : Type} (b : List (String × α)) :
    ∀ (a : JSObj α) (k : String),
      jsGet (jsSpread a b) k = jsAlt (jsGet b.reverse k) (jsGet a k) := by
  induction b with
  | nil => intro a k; simp [jsSpread, jsGet, jsAlt]
  | cons e rest ih =>
      intro a k
      show jsGet (jsSpread (jsSet a e.1 e.2) rest) k = _
      rw [ih, List.reverse_cons, jsGet_append, jsGet_jsSet]
      cases hrev : jsGet rest.reverse k
      · by_cases he : e.1 = k <;> simp [he, jsAlt, jsGet]
      · simp [jsAlt]

theorem jsGet_of_nodup_mem {α : Type} {l : JSObj α} {k : String} {v : α}
    (hnd : (objKeys l).Nodup) (hm : (k, v) ∈ l) : jsGet l k = some v := by
  induction l with
  | nil => simp at hm
  | cons e rest ih =>
      have hnd' : (objKeys rest).Nodup := (List.nodup_cons.mp hnd).2
      have hhead : e.1 ∉ objKeys rest := (List.nodup_cons.mp hnd).1
      rcases List.mem_cons.mp hm with h1 | h1
      · rw [← h1]
        simp [jsGet]
      · have hk : k ∈ objKeys rest := List.mem_map_of_mem Prod.fst h1
        have he : e.1 ≠ k := fun hh => hhead (hh ▸ hk)
        simp only [jsGet, if_neg he]
        exact ih hnd' h1

theorem jsGet_reverse_of_nodup_mem {α : Type} {l : JSObj α} {k : String} {v : α}
    (hnd : (objKeys l).Nodup) (hm : (k, v) ∈ l) : jsGet l.reverse k = some v := by
  apply jsGet_of_nodup_mem
  · have h1 : objKeys l.reverse = (objKeys l).reverse := by simp [objKeys]
    rw [h1]
    exact List.nodup_reverse.mpr hnd
  · exact List.mem_reverse.mpr hm

theorem charPairsFrom_mem (l : List Char) :
    ∀ (n i : Nat) (c : Char), l.get? i = some c →
      (Nat.repr (n + i), SVal.str (String.mk [c])) ∈ charPairsFrom n l := by
  induction l with
  | nil => intro n i c h; simp [List.get?] at h
  | cons c0 rest ih =>
      intro n i c h
      cases i with
      | zero =>
          simp [List.get?] at h
          subst h
          exact List.mem_cons_self _ _
      | succ j =>
          simp only [List.get?] at h
          have harr : n + (j + 1) = (n + 1) + j := by omega
          rw [harr]
          exact List.mem_cons_of_mem _ (ih (n + 1) j c h)

/-- The key-collection loop of `mergeStylings` (src/index.js lines
90-93) produces the default keys followed by the custom-only keys. -/
theorem pushKeys_eq (ck : List String) :
    ∀ acc : List String, ck.Nodup →
      List.foldl (fun ks key => if key ∈ ks then ks else ks ++ [key]) acc ck
        = acc ++ ck.filter (fun k => decide (k ∉ acc)) := by
  induction ck with
  | nil => intro acc _; simp
  | cons k0 rest ih =>
      intro acc hnd
      have hk0 : k0 ∉ rest := (List.nodup_cons.mp hnd).1
      have hnd' : rest.Nodup := (List.nodup_cons.mp hnd).2
      by_cases hm : k0 ∈ acc
      · simp only [List.foldl_cons, if_pos hm]
        rw [ih _ hnd']
        simp [List.filter_cons, hm]
      · simp only [List.foldl_cons, if_neg hm]
        rw [ih _ hnd']
        have hfc : rest.filter (fun k => decide (k ∉ acc ++ [k0]))
            = rest.filter (fun k => decide (k ∉ acc)) := by
          apply List.filter_congr
          intro k hk
          have hkne : k ≠ k0 := fun h => hk0 (h ▸ hk)
          simp [List.mem_append, hkne]
        rw [hfc]
        simp [List.filter_cons, hm, List.append_assoc]

/-! ## `mergeStylings`, `effectiveTheme`, `customStylingOf` characterisations -/

theorem objKeys_keyMap {α : Type} (f : String → α) (l : List String) :
    objKeys (l.map (fun key => (key, f key))) = l := by
  induction l with
  | nil => rfl
  | cons a rest ih =>
      show (a, f a).1 :: objKeys (rest.map _) = a :: rest
      rw [ih]

theorem mergeStylings_spec (c d : JSObj SVal)
    (hc : (objKeys c).Nodup) (hd : (objKeys d).Nodup) :
    objKeys (mergeStylings c d)
        = objKeys d ++ (objKeys c).filter (fun k => decide (k ∉ objKeys d)) ∧
      ∀ k, k ∈ objKeys d ∨ k ∈ objKeys c →
        jsGet (mergeStylings c d) k
          = some (mergeStyling (jsGet c k) (jsGet d k)) := by
  have hkeys := pushKeys_eq (objKeys c) (objKeys d) hc
  have hUnd : (objKeys d ++ (objKeys c).filter (fun k => decide (k ∉ objKeys d))).Nodup := by
    refine List.Nodup.append hd (hc.filter _) ?_
    intro x hx hx2
    rcases List.mem_filter.mp hx2 with ⟨_, hpx⟩
    rw [decide_eq_true_eq] at hpx
    exact hpx hx
  have hfold := foldl_jsSet_entries
    (fun key => mergeStyling (jsGet c key) (jsGet d key))
    (objKeys d ++ (objKeys c).filter (fun k => decide (k ∉ objKeys d))) [] hUnd
    (by intro k _ hk; simp [objKeys] at hk)
  have hmemU : ∀ k, k ∈ objKeys d ++ (objKeys c).filter (fun k => decide (k ∉ objKeys d))
      ↔ (k ∈ objKeys d ∨ k ∈ objKeys c) := by
    intro k
    constructor
    · intro hk
      rcases List.mem_append.mp hk with h | h
      · exact Or.inl h
      · exact Or.inr (List.mem_filter.mp h).1
    · intro hk
      by_cases hkd : k ∈ objKeys d
      · exact List.mem_append.mpr (Or.inl hkd)
      · rcases hk with h | h
        · exact absurd h hkd
        · exact List.mem_append.mpr (Or.inr (List.mem_filter.mpr ⟨h, by simpa using hkd⟩))
  constructor
  · simp only [mergeStylings]
    rw [hkeys, hfold, List.nil_append, objKeys_keyMap]
  · intro k hk
    simp only [mergeStylings]
    rw [hkeys, hfold, List.nil_append, jsGet_keyMap, if_pos ((hmemU k).mpr hk)]

theorem jsGet_effectiveTheme (D : JSObj SVal) (tos : SVal) (k : String) :
    jsGet (effectiveTheme D tos) k
      = if k ∈ BASE16_KEYS then some (jsOrVal (svalIndex tos k) (jsGet D k))
        else none := by
  unfold effectiveTheme
  rw [foldl_jsSet_entries _ BASE16_KEYS [] (by decide)
      (by intro k _ hk; simp [objKeys] at hk)]
  rw [List.nil_append, jsGet_keyMap]

theorem customStylingOf_eq (tos : SVal) (h : (svalKeys tos).Nodup) :
    customStylingOf tos
      = ((svalKeys tos).filter (fun k => decide (k ∉ BASE16_KEYS))).map
          (fun key => (key, (svalIndex tos key).getD (.str ""))) := by
  unfold customStylingOf
  rw [foldl_jsSet_guard_entries (fun key => key ∈ BASE16_KEYS) _ (svalKeys tos) [] h
      (by intro k _ hk; simp [objKeys] at hk)]
  simp

theorem objKeys_customStylingOf (tos : SVal) (h : (svalKeys tos).Nodup) :
    objKeys (customStylingOf tos)
      = (svalKeys tos).filter (fun k => decide (k ∉ BASE16_KEYS)) := by
  rw [customStylingOf_eq _ h]
  exact objKeys_keyMap _ _

theorem jsGet_customStylingOf (tos : SVal) (h : (svalKeys tos).Nodup) (k : String) :
    jsGet (customStylingOf tos) k
      = if k ∈ svalKeys tos ∧ k ∉ BASE16_KEYS
        then some ((svalIndex tos k).getD (.str "")) else none := by
  rw [customStylingOf_eq _ h, jsGet_keyMap]
  by_cases hk : k ∈ svalKeys tos ∧ k ∉ BASE16_KEYS
  · rw [if_pos (List.mem_filter.mpr ⟨hk.1, by simpa using hk.2⟩), if_pos hk]
  · rw [if_neg ?_, if_neg hk]
    intro hm
    exact hk ⟨(List.mem_filter.mp hm).1, by simpa using (List.mem_filter.mp hm).2⟩

/-! ## `invertTheme` characterisation -/

theorem invertTheme_eq (theme : JSObj SVal) (h : (objKeys theme).Nodup) :
    invertTheme theme =
      (objKeys theme).map
        (fun key => (key, invertEntry key ((jsGet theme key).getD (.str "")))) := by
  unfold invertTheme
  rw [foldl_jsSet_entries _ (objKeys theme) [] h (by intro k _ hk; simp [objKeys] at hk)]
  simp

theorem objKeys_invertTheme (theme : JSObj SVal) (h : (objKeys theme).Nodup) :
    objKeys (invertTheme theme) = objKeys theme := by
  rw [invertTheme_eq _ h]
  simp [objKeys]

theorem jsGet_invertTheme (theme : JSObj SVal) (h : (objKeys theme).Nodup)
    {k : String} {v : SVal} (hv : jsGet theme k = some v) :
    jsGet (invertTheme theme) k = some (invertEntry k v) := by
  rw [invertTheme_eq _ h, jsGet_keyMap, if_pos (mem_objKeys_of_jsGet hv), hv]
  rfl

theorem isStrV_invertEntry {k : String} {v : SVal} (h : isStrV v = true) :
    isStrV (invertEntry k v) = true := by
  cases v <;> simp [isStrV] at h ⊢
  unfold invertEntry
  by_cases hb : startsWithBase k
  · simp [hb, invertColorSV, isStrV]
  · rw [if_neg hb]
    by_cases hsch : k = "scheme"
    · simp [hsch, schemeAppend, isStrV]
    · simp [hsch, isStrV]

theorem allStrVals_invertTheme (theme : JSObj SVal) (h : (objKeys theme).Nodup)
    (hs : allStrVals theme = true) : allStrVals (invertTheme theme) = true := by
  rw [invertTheme_eq _ h]
  unfold allStrVals at hs ⊢
  rw [List.all_eq_true] at hs ⊢
  intro e he
  rcases List.mem_map.mp he with ⟨key, hkey, rfl⟩
  obtain ⟨v, hv⟩ := jsGet_isSome_of_mem_objKeys hkey
  have hstr := hs _ (jsGet_mem hv)
  rw [hv]
  exact isStrV_invertEntry hstr


theorem strAppend_assoc (a b c : String) : a ++ b ++ c = a ++ (b ++ c) := by
  cases a
  cases b
  cases c
  exact congrArg String.mk (List.append_assoc _ _ _)

/-! ## Claim theorems -/

/-- C8: undefined is a two-sided identity for the styling merge:
`mergeStyling(undefined, D) = D` and `mergeStyling(C, undefined) = C`
for every defined styling value `D`, `C`. -/
theorem c8_merge_undefined_identity (c d : SVal) :
    mergeStyling none (some d) = some d ∧ mergeStyling (some c) none = some c :=
  ⟨rfl, rfl⟩

/-- C10: for defined styling values where at least one side's runtime type
is not string/object/function, no case of the 3x3 dispatch matches and
`mergeStyling` returns `undefined`. -/
theorem c10_merge_fallthrough_undefined (c d : SVal)
    (h : isStrObjFn c = false ∨ isStrObjFn d = false) :
    mergeStyling (some c) (some d) = none := by
  show mergeStylingCase c d = none
  unfold mergeStylingCase
  unfold isStrObjFn at h
  cases hc : svalView c <;> cases hd : svalView d <;> simp_all

/-- Witness for C10 at the concrete pair (number 5, string "a"). -/
theorem c10_merge_fallthrough_undefined_witness :
    isStrObjFn (SVal.num 5) = false ∧
      mergeStyling (some (SVal.num 5)) (some (SVal.str "a")) = none :=
  ⟨rfl, c10_merge_fallthrough_undefined (SVal.num 5) (SVal.str "a") (Or.inl rfl)⟩

/-- C7: for every (string-valued, duplicate-free) theme, `invertTheme`
returns a theme with exactly the same key set; every key starting with
`base` has its value replaced by the color-inverted value, the `scheme`
key gets the literal `:inverted` suffix appended, and every other key's
value passes through unchanged. -/
theorem c7_invertTheme_shape (theme : JSObj SVal)
    (hnd : (objKeys theme).Nodup) (_hstr : allStrVals theme = true) :
    objKeys (invertTheme theme) = objKeys theme ∧
      ∀ k s, jsGet theme k = some (SVal.str s) →
        jsGet (invertTheme theme) k
          = some (if startsWithBase k then SVal.str (invertColor s)
                  else if k = "scheme" then SVal.str (s ++ ":inverted")
                  else SVal.str s) := by
  refine ⟨objKeys_invertTheme _ hnd, ?_⟩
  intro k s hv
  rw [jsGet_invertTheme _ hnd hv]
  unfold invertEntry
  by_cases hb : startsWithBase k
  · rw [if_pos hb, if_pos hb]
    rfl
  · rw [if_neg hb, if_neg hb]
    by_cases hsch : k = "scheme"
    · rw [if_pos hsch, if_pos hsch]
      rfl
    · rw [if_neg hsch, if_neg hsch]

/-- Witness for C7 at a concrete three-key theme. -/
theorem c7_invertTheme_shape_witness :
    objKeys (invertTheme smallTheme) = objKeys smallTheme ∧
      jsGet (invertTheme smallTheme) "base00"
        = some (SVal.str (invertColor "#ffffff")) ∧
      jsGet (invertTheme smallTheme) "scheme"
        = some (SVal.str "tomorrow:inverted") ∧
      jsGet (invertTheme smallTheme) "author" = some (SVal.str "someone") := by
  have h := c7_invertTheme_shape smallTheme (by decide) (by decide)
  refine ⟨h.1, ?_, ?_, ?_⟩
  · have h2 := h.2 "base00" "#ffffff" rfl
    rwa [if_pos (by decide : startsWithBase "base00" = true)] at h2
  · have h2 := h.2 "scheme" "tomorrow" rfl
    rwa [if_neg (by decide : ¬startsWithBase "scheme" = true), if_pos rfl] at h2
  · have h2 := h.2 "author" "someone" rfl
    rwa [if_neg (by decide : ¬startsWithBase "author" = true),
      if_neg (by decide : ¬("author" = "scheme"))] at h2

/-- C2 counterexample: double inversion does not restore the `base*`
values up to round-trip rounding - the black `#000000` comes back as
`#1a1a1a`, a shift of 26 (of 255) per channel, far beyond the one-unit
hex rounding tolerance. -/
theorem c2_counterexample :
    jsGet (invertTheme (invertTheme blackTheme)) "base00"
        = some (SVal.str "#1a1a1a") ∧
      jsGet blackTheme "base00" = some (SVal.str "#000000") ∧
      parseHexColor "#1a1a1a" = some (26, 26, 26) ∧
      parseHexColor "#000000" = some (0, 0, 0) ∧
      SVal.str "#1a1a1a" ≠ SVal.str "#000000" := by
  refine ⟨rfl, rfl, rfl, rfl, ?_⟩
  intro h
  injection h with h2
  exact absurd h2 (by decide)

/-- C2 (amended): applying `invertTheme` twice to a (string-valued,
duplicate-free) theme preserves the key set, leaves the `scheme` value
with the suffix `:inverted:inverted`, and maps every `base*` value to the
double color inversion of the original - which in general differs from
the original value (`flip` is only an involution on mid-range luma; see
the counterexample: black returns as `#1a1a1a`). -/
theorem c2_double_inversion (theme : JSObj SVal)
    (hnd : (objKeys theme).Nodup) (_hstr : allStrVals theme = true) :
    objKeys (invertTheme (invertTheme theme)) = objKeys theme ∧
      (∀ s, jsGet theme "scheme" = some (SVal.str s) →
        jsGet (invertTheme (invertTheme theme)) "scheme"
          = some (SVal.str (s ++ ":inverted:inverted"))) ∧
      (∀ k s, startsWithBase k = true → jsGet theme k = some (SVal.str s) →
        jsGet (invertTheme (invertTheme theme)) k
          = some (SVal.str (invertColor (invertColor s)))) := by
  have hnd1 : (objKeys (invertTheme theme)).Nodup := by
    rw [objKeys_invertTheme _ hnd]
    exact hnd
  refine ⟨?_, ?_, ?_⟩
  · rw [objKeys_invertTheme _ hnd1, objKeys_invertTheme _ hnd]
  · intro s hv
    have h1 : jsGet (invertTheme theme) "scheme"
        = some (SVal.str (s ++ ":inverted")) := by
      rw [jsGet_invertTheme _ hnd hv]
      unfold invertEntry
      rw [if_neg (by decide : ¬startsWithBase "scheme" = true), if_pos rfl]
      rfl
    have h2 := jsGet_invertTheme _ hnd1 h1
    rw [h2]
    unfold invertEntry
    rw [if_neg (by decide : ¬startsWithBase "scheme" = true), if_pos rfl]
    show some (SVal.str (s ++ ":inverted" ++ ":inverted")) = _
    rw [strAppend_assoc]
    rfl
  · intro k s hb hv
    have h1 : jsGet (invertTheme theme) k = some (SVal.str (invertColor s)) := by
      rw [jsGet_invertTheme _ hnd hv]
      unfold invertEntry
      rw [if_pos hb]
      rfl
    have h2 := jsGet_invertTheme _ hnd1 h1
    rw [h2]
    unfold invertEntry
    rw [if_pos hb]
    rfl

/-- Witness for the amended C2 at the concrete black theme. -/
theorem c2_double_inversion_witness :
    objKeys (invertTheme (invertTheme blackTheme)) = objKeys blackTheme ∧
      jsGet (invertTheme (invertTheme blackTheme)) "scheme"
        = some (SVal.str "x:inverted:inverted") ∧
      jsGet (invertTheme (invertTheme blackTheme)) "base00"
        = some (SVal.str (invertColor (invertColor "#000000"))) := by
  have h := c2_double_inversion blackTheme (by decide) (by decide)
  exact ⟨h.1, h.2.1 "x" rfl, h.2.2 "base00" "#000000" (by decide) rfl⟩

/-- C5: the merged styling map's keys are the default map's keys followed
by the custom-only keys, and at every key of the union the merged value
is exactly `mergeStyling` of the two sides' values at that key - so each
key's result is independent of every other key. -/
theorem c5_mergeStylings_pointwise (c d : JSObj SVal)
    (hc : (objKeys c).Nodup) (hd : (objKeys d).Nodup) :
    objKeys (mergeStylings c d)
        = objKeys d ++ (objKeys c).filter (fun k => decide (k ∉ objKeys d)) ∧
      ∀ k, k ∈ objKeys d ∨ k ∈ objKeys c →
        jsGet (mergeStylings c d) k
          = some (mergeStyling (jsGet c k) (jsGet d k)) :=
  mergeStylings_spec c d hc hd

/-- Witness for C5 at two concrete two-entry maps sharing the key
`tree`. -/
theorem c5_mergeStylings_pointwise_witness :
    objKeys (mergeStylings c5Custom c5Default)
        = objKeys c5Default
            ++ (objKeys c5Custom).filter (fun k => decide (k ∉ objKeys c5Default)) ∧
      jsGet (mergeStylings c5Custom c5Default) "tree"
        = some (mergeStyling (jsGet c5Custom "tree") (jsGet c5Default "tree")) ∧
      jsGet (mergeStylings c5Custom c5Default) "extra"
        = some (mergeStyling (jsGet c5Custom "extra") (jsGet c5Default "extra")) := by
  have h := c5_mergeStylings_pointwise c5Custom c5Default (by decide) (by decide)
  exact ⟨h.1, h.2 "tree" (Or.inl (by decide)), h.2 "extra" (Or.inr (by decide))⟩

/-- C6: the key resolver with `keys === null` returns the merged map
verbatim, and a single non-array key gives the same result as the
one-element key list, for the same extra arguments. -/
theorem c6_key_resolver_null_single (m : JSObj (Option SVal)) (k : String)
    (args : List SVal) :
    getStylingByKeys m KeysArg.jsNull args = GSBKResult.rawMap m ∧
      getStylingByKeys m (KeysArg.single k) args
        = getStylingByKeys m (KeysArg.keyList [k]) args :=
  ⟨rfl, rfl⟩

/-- C3 counterexample: with `options.defaultBase16` provided but partial
(only `base00`), the claimed per-key third tier to the built-in table
does not happen: `base01` is stored as undefined, not the built-in
`#282828`; and a present-but-falsy input value (`base02 = ""`) is also
not used, contradicting the claim's "input's value if present". -/
theorem c3_counterexample :
    jsGet (effectiveTheme (c3Options.defaultBase16.getD DEFAULT_BASE16) c3Input) "base01"
        = some none ∧
      jsGet DEFAULT_BASE16 "base01" = some (SVal.str "#282828") ∧
      jsGet (effectiveTheme (c3Options.defaultBase16.getD DEFAULT_BASE16) c3Input) "base02"
        = some none ∧
      svalIndex c3Input "base02" = some (SVal.str "") ∧
      (some (none : Option SVal) ≠ some (some (SVal.str "#282828"))) := by
  refine ⟨rfl, rfl, rfl, rfl, ?_⟩
  simp

/-- C3 (amended): for each of the 16 reserved color keys the effective
theme entry is created and holds the input's value when that value is
truthy, else the value of the effective default table at that key - where
the effective default table is `options.defaultBase16` when provided
(object-level fallback: no further per-key tier to the built-in table, so
a key missing there yields undefined) and the built-in `DEFAULT_BASE16`
otherwise. -/
theorem c3_effective_theme_two_tier (options : StylingOptions) (tos : SVal)
    (k : String) (hk : k ∈ COLOR_KEYS) :
    jsGet (effectiveTheme (options.defaultBase16.getD DEFAULT_BASE16) tos) k
      = some (jsOrVal (svalIndex tos k)
          (jsGet (options.defaultBase16.getD DEFAULT_BASE16) k)) := by
  rw [jsGet_effectiveTheme, if_pos ?_]
  have sub : ∀ x ∈ COLOR_KEYS, x ∈ BASE16_KEYS := by decide
  exact sub k hk

/-- Witness for the amended C3 at `base00` with empty options and an
input providing a truthy `base00`. -/
theorem c3_effective_theme_two_tier_witness :
    ("base00" ∈ COLOR_KEYS) ∧
      jsGet (effectiveTheme (noOptions.defaultBase16.getD DEFAULT_BASE16)
          (SVal.obj [("base00", SVal.str "#123456")])) "base00"
        = some (jsOrVal (svalIndex (SVal.obj [("base00", SVal.str "#123456")]) "base00")
            (jsGet (noOptions.defaultBase16.getD DEFAULT_BASE16) "base00")) :=
  ⟨by decide,
    c3_effective_theme_two_tier noOptions (SVal.obj [("base00", SVal.str "#123456")])
      "base00" (by decide)⟩

/-- C4 counterexample: in the claimed scenario the resolved props for
`base0D` do not contain `color`/`fontWeight` style attributes at all -
the style object has a single `style` key (the derived default value was
spread directly into `style`), and the override object replaced the
theme color inside it. -/
theorem c4_counterexample :
    jsGet c4ResultStyle "color" = none ∧
      jsGet c4ResultStyle "fontWeight" = none ∧
      jsGet c4ResultStyle "style" = some (SVal.obj [("color", c4Override)]) ∧
      ((none : Option SVal) ≠ some (SVal.str "#ff0000")) := by
  refine ⟨rfl, rfl, rfl, ?_⟩
  simp

/-- C4 (amended): in the claimed scenario - `deriveDefaults` mapping each
color key to an object `style -> (color -> theme[key])`, the theme
supplied via `extend` with `base0D = #ff0000`, and the override object
under the reserved key `base0D` - the override lands in the effective
theme (reserved keys are excluded from the custom styling map), so
resolving `base0D` yields props whose `style` is the derived default
object itself: a single `style` key holding `color -> <override object>`,
not the claimed merged `color`/`fontWeight` style. -/
theorem c4_resolution_actual :
    c4Resolve
      = Except.ok (GSBKResult.props
          (Props.mk none
            (some [("style", SVal.obj [("color", c4Override)])]))) := rfl

/-- C1: evaluation at the failing input.  An unknown plain theme name
resolves to undefined and `createStyling` falls back to the built-in
default colors without throwing; but the same unknown name with the
`:inverted` modifier makes `getBase16Theme` call `invertTheme(undefined)`
- `Object.keys(undefined)` - which throws a TypeError that `createStyling`
propagates, contradicting the claim's "without throwing any exception". -/
theorem c1_unknown_inverted_throws :
    getBase16Theme (SVal.str "nonexistent") none = Except.ok none ∧
      jsGet (effectiveTheme DEFAULT_BASE16 (SVal.str "nonexistent")) "base00"
        = some (some (SVal.str "#181818")) ∧
      (∃ m, createStyling constDeriveDefaults noOptions (SVal.str "nonexistent")
        = Except.ok m) ∧
      getBase16Theme (SVal.str "nonexistent:inverted") none
        = Except.error JsErr.typeError ∧
      createStyling constDeriveDefaults noOptions (SVal.str "nonexistent:inverted")
        = Except.error JsErr.typeError :=
  ⟨rfl, rfl, ⟨_, rfl⟩, rfl, rfl⟩

/-- C9: when the themeOrStyling argument is a string name that resolves
to a registered theme, the overlay `{...base16Theme, ...themeOrStyling}`
spreads the string's characters under their decimal index keys; those are
not reserved keys, so each appears in the custom styling map as a
one-character string styling value, and - provided the derived default
map has no entry at that index key and has duplicate-free keys - in the
merged styling map unchanged. -/
theorem c9_string_theme_char_keys (name : String) (options : StylingOptions)
    (dd : JSObj (Option SVal) → JSObj SVal) (bt : JSObj SVal)
    (hres : getBase16Theme (SVal.str name) options.base16Themes = Except.ok (some bt))
    (i : Nat) (c : Char)
    (hc : name.toList.get? i = some c)
    (hnb : Nat.repr i ∉ BASE16_KEYS)
    (hch : (objKeys (charPairs name)).Nodup)
    (hddnd : (objKeys (dd (effectiveTheme (options.defaultBase16.getD DEFAULT_BASE16)
        (overlayOf bt (SVal.str name))))).Nodup)
    (hddnone : jsGet (dd (effectiveTheme (options.defaultBase16.getD DEFAULT_BASE16)
        (overlayOf bt (SVal.str name)))) (Nat.repr i) = none) :
    jsGet (customStylingOf (overlayOf bt (SVal.str name))) (Nat.repr i)
        = some (SVal.str (String.mk [c])) ∧
      createStyling dd options (SVal.str name)
        = Except.ok (mergeStylings (customStylingOf (overlayOf bt (SVal.str name)))
            (dd (effectiveTheme (options.defaultBase16.getD DEFAULT_BASE16)
              (overlayOf bt (SVal.str name))))) ∧
      jsGet (mergeStylings (customStylingOf (overlayOf bt (SVal.str name)))
          (dd (effectiveTheme (options.defaultBase16.getD DEFAULT_BASE16)
            (overlayOf bt (SVal.str name))))) (Nat.repr i)
        = some (some (SVal.str (String.mk [c]))) := by
  have hmem : (Nat.repr i, SVal.str (String.mk [c])) ∈ charPairs name := by
    have h := charPairsFrom_mem name.toList 0 i c hc
    rwa [Nat.zero_add] at h
  have hrev : jsGet (charPairs name).reverse (Nat.repr i)
      = some (SVal.str (String.mk [c])) :=
    jsGet_reverse_of_nodup_mem hch hmem
  have hspread : jsGet (jsSpread (jsSpread [] bt) (charPairs name)) (Nat.repr i)
      = some (SVal.str (String.mk [c])) := by
    rw [jsGet_jsSpread, hrev]
    rfl
  have hnds : (objKeys (jsSpread (jsSpread [] bt) (charPairs name))).Nodup :=
    objKeys_jsSpread_nodup (charPairs name) (jsSpread [] bt)
      (objKeys_jsSpread_nodup bt [] List.nodup_nil)
  have hnds' : (svalKeys (overlayOf bt (SVal.str name))).Nodup := hnds
  have hmemk : Nat.repr i ∈ svalKeys (overlayOf bt (SVal.str name)) :=
    mem_objKeys_of_jsGet hspread
  have hcust : jsGet (customStylingOf (overlayOf bt (SVal.str name))) (Nat.repr i)
      = some (SVal.str (String.mk [c])) := by
    rw [jsGet_customStylingOf _ hnds', if_pos ⟨hmemk, hnb⟩]
    show some ((jsGet (jsSpread (jsSpread [] bt) (charPairs name))
      (Nat.repr i)).getD (SVal.str "")) = _
    rw [hspread]
    rfl
  refine ⟨hcust, ?_, ?_⟩
  · simp only [createStyling, hres]
  · have hcustnd : (objKeys (customStylingOf (overlayOf bt (SVal.str name)))).Nodup := by
      rw [objKeys_customStylingOf _ hnds']
      exact hnds'.filter _
    have h5 := (mergeStylings_spec _ _ hcustnd hddnd).2 (Nat.repr i)
      (Or.inr (mem_objKeys_of_jsGet hcust))
    rw [h5, hcust, hddnone]
    rfl

/-- Witness for C9 at the registered name `ab`, index 0. -/
theorem c9_string_theme_char_keys_witness :
    jsGet (customStylingOf (overlayOf c9Theme (SVal.str "ab"))) "0"
        = some (SVal.str "a") ∧
      createStyling c9DeriveDefaults c9Options (SVal.str "ab")
        = Except.ok (mergeStylings (customStylingOf (overlayOf c9Theme (SVal.str "ab")))
            (c9DeriveDefaults (effectiveTheme (c9Options.defaultBase16.getD DEFAULT_BASE16)
              (overlayOf c9Theme (SVal.str "ab"))))) ∧
      jsGet (mergeStylings (customStylingOf (overlayOf c9Theme (SVal.str "ab")))
          (c9DeriveDefaults (effectiveTheme (c9Options.defaultBase16.getD DEFAULT_BASE16)
            (overlayOf c9Theme (SVal.str "ab"))))) "0"
        = some (some (SVal.str "a")) := by
  have h := c9_string_theme_char_keys "ab" c9Options c9DeriveDefaults c9Theme rfl
    0 'a' rfl (by decide) (by decide) (by decide) rfl
  exact h

end ReactBase16Styling
